import Mathlib

/-!
Formal model of the audio subtitle editor's core logic
(`AudioSubtitleEditor` component): transcript segmentation with the
redistribution pass, active-cue lookup, text/timing edit operations, the
nudge handlers, and the `formatTime` / `parseTime` pair.

JavaScript numbers are modelled as exact rationals (`ℚ`); strings that are
parsed or split are modelled as `List Char`.
-/

set_option autoImplicit false
set_option maxRecDepth 10000

/-- Model of the `Subtitle` interface: `id`, `startTime`, `endTime` (seconds), `text`. -/
structure Subtitle where
  id : String
  startTime : ℚ
  endTime : ℚ
  text : String
deriving DecidableEq, Repr

/-- Model of JavaScript `String.prototype.split` with a character predicate as
separator: `"".split` gives `[""]`, separators at the ends give empty parts. -/
def splitP (p : Char → Bool) : List Char → List (List Char)
  | [] => [[]]
  | c :: cs =>
    if p c then
      [] :: splitP p cs
    else
      match splitP p cs with
      | part :: parts => (c :: part) :: parts
      | [] => [[c]]

/-- Model of JavaScript `String.prototype.trim`: drop leading and trailing
whitespace (ASCII whitespace via `Char.isWhitespace`). -/
def jsTrim (l : List Char) : List Char :=
  (((l.dropWhile Char.isWhitespace).reverse.dropWhile Char.isWhitespace)).reverse

/-- Tokenization in `transcribeAudio`:
`text.split(' ').filter(word => word.trim().length > 0)`. -/
def tokenize (text : List Char) : List (List Char) :=
  (splitP (fun c => c == ' ') text).filter (fun w => decide (0 < (jsTrim w).length))

/-- Constant `wordsPerSegment = 4` from `transcribeAudio`. -/
def wordsPerSegment : Nat := 4

/-- Constant `baseSegmentDuration = 2.5` from `transcribeAudio`. -/
def baseSegmentDuration : ℚ := 2.5

/-- Model of the loop index stepping: `words.slice(i, i + wordsPerSegment)` for
`i = 0, 4, 8, ...` groups the word list into chunks of `wordsPerSegment = 4`
(the final chunk may be shorter). -/
def chunk4 : List (List Char) → List (List (List Char))
  | [] => []
  | a :: b :: c :: d :: rest => [a, b, c, d] :: chunk4 rest
  | l => [l]

/-- Model of the `for` loop body of `transcribeAudio` (lines 193–222): for the
chunk with segment index `k`, `startTime = k * baseSegmentDuration`; the
duration multiplier is `max 0.8 (min 1.5 (avgWordLength / 5))`; the segment
duration is capped by the remaining audio time and the end time by the total
`duration`; a chunk whose `startTime` reaches `duration` breaks out of the
loop, dropping all remaining chunks. -/
def buildCues (duration : ℚ) : Nat → List (List (List Char)) → List Subtitle
  | _, [] => []
  | k, w :: ws =>
    let startTime : ℚ := (k : ℚ) * baseSegmentDuration
    let wordCount : ℚ := (w.length : ℚ)
    let avgWordLength : ℚ := (((w.map List.length).sum : Nat) : ℚ) / wordCount
    let durationMultiplier : ℚ := max 0.8 (min 1.5 (avgWordLength / 5))
    let segmentDuration : ℚ := min (baseSegmentDuration * durationMultiplier) (duration - startTime)
    let endTime : ℚ := min (startTime + segmentDuration) duration
    if startTime ≥ duration then []
    else
      { id := "subtitle-" ++ toString k,
        startTime := startTime,
        endTime := endTime,
        text := String.mk (List.intercalate [' '] w) } :: buildCues duration (k + 1) ws

/-- Model of the `forEach` body of the redistribution pass (lines 230–233),
carrying the running index `k`: `startTime = k * (duration / total)`,
`endTime = min ((k+1) * (duration / total)) duration`. -/
def redistributeAux (duration : ℚ) (total : Nat) : Nat → List Subtitle → List Subtitle
  | _, [] => []
  | k, s :: rest =>
    { s with
      startTime := (k : ℚ) * (duration / (total : ℚ)),
      endTime := min (((k : ℚ) + 1) * (duration / (total : ℚ))) duration }
      :: redistributeAux duration total (k + 1) rest

/-- Model of the redistribution pass (lines 226–234): when at least one cue was
produced, every cue's bounds are recomputed as the uniform partition of
`[0, duration]` into `length` equal spans. -/
def redistribute (duration : ℚ) (subs : List Subtitle) : List Subtitle :=
  if 0 < subs.length then redistributeAux duration subs.length 0 subs else subs

/-- The transcript-to-cues segmentation of `transcribeAudio` (lines 184–234):
tokenize, group into 4-word windows, build provisional cues, then apply the
redistribution pass. -/
def segmentTranscript (text : List Char) (duration : ℚ) : List Subtitle :=
  redistribute duration (buildCues duration 0 (chunk4 (tokenize text)))

/-- Model of the active-cue lookup in `updateTime`:
`subtitles.find(sub => time >= sub.startTime && time <= sub.endTime)`. -/
def findCurrentSub (subtitles : List Subtitle) (time : ℚ) : Option Subtitle :=
  subtitles.find? (fun sub => decide (time ≥ sub.startTime) && decide (time ≤ sub.endTime))

/-- Model of `updateSubtitleText`: map over the list, replacing the text of
every cue whose `id` matches. -/
def updateSubtitleText (id : String) (newText : String) (subs : List Subtitle) : List Subtitle :=
  subs.map (fun sub => if sub.id = id then { sub with text := newText } else sub)

/-- Model of `updateSubtitleTiming`: map over the list, replacing both bounds of
every cue whose `id` matches. -/
def updateSubtitleTiming (id : String) (startTime endTime : ℚ) (subs : List Subtitle) : List Subtitle :=
  subs.map (fun sub => if sub.id = id then { sub with startTime := startTime, endTime := endTime } else sub)

/-- Model of the "End -0.5s" button handler:
`Math.max(subtitle.startTime + 0.1, subtitle.endTime - 0.5)`. -/
def nudgeEndDown (subtitle : Subtitle) : ℚ :=
  max (subtitle.startTime + 0.1) (subtitle.endTime - 0.5)

/-- Model of the "End +0.5s" button handler:
`Math.min(duration, subtitle.endTime + 0.5)`. -/
def nudgeEndUp (duration : ℚ) (subtitle : Subtitle) : ℚ :=
  min duration (subtitle.endTime + 0.5)

/-- Model of the "Start -0.5s" button handler: `Math.max(0, subtitle.startTime - 0.5)`. -/
def nudgeStartDown (subtitle : Subtitle) : ℚ :=
  max 0 (subtitle.startTime - 0.5)

/-- Model of the "Start +0.5s" button handler:
`Math.min(subtitle.endTime - 0.1, subtitle.startTime + 0.5)`. -/
def nudgeStartUp (subtitle : Subtitle) : ℚ :=
  min (subtitle.endTime - 0.1) (subtitle.startTime + 0.5)

/-- The component state touched by `transcribeAudio`: the cue list, the
in-progress flag and the progress indicator. -/
structure EditorState where
  subtitles : List Subtitle
  isTranscribing : Bool
  transcriptionProgress : ℚ
deriving DecidableEq, Repr

/-- Model of one complete run of the `transcribeAudio` handler, parameterised by
the outcome of the provider call (`blink.ai.transcribeAudio`, or the earlier
`FileReader` step): on success the cue list is wholesale replaced by the
segmentation result (`setSubtitles(newSubtitles)`); on a throw/reject the
`catch` block only logs and alerts, leaving `subtitles` untouched; the
`finally` block resets `isTranscribing` and `transcriptionProgress`. -/
def transcribeAudioRun (st : EditorState) (duration : ℚ)
    (providerResult : Except String (List Char)) : EditorState :=
  match providerResult with
  | Except.ok text =>
      { st with
        subtitles := segmentTranscript text duration,
        isTranscribing := false,
        transcriptionProgress := 0 }
  | Except.error _ =>
      { st with
        isTranscribing := false,
        transcriptionProgress := 0 }

/-- Character is an ASCII decimal digit. -/
def isDigitChar (c : Char) : Bool :=
  '0' ≤ c && c ≤ '9'

/-- Accumulator loop of the `parseInt` model: consume leading decimal digits,
stopping at the first non-digit; `none` when no digit has been seen. -/
def parseIntDigits : List Char → Option Nat → Option Nat
  | [], acc => acc
  | c :: cs, acc =>
    if isDigitChar c then
      parseIntDigits cs (some ((acc.getD 0) * 10 + (c.toNat - 48)))
    else acc

/-- Model of JavaScript `parseInt(s)` in its base-10 reading: skip leading
whitespace, accept an optional sign, then read the longest prefix of decimal
digits; `none` models `NaN`. (The hexadecimal `0x` autodetection of `parseInt`
is not modelled; no caller in this component can feed it a `0x` prefix that
matters, since every argument is a fragment of a typed time string and a
leading `0x...` would stop at `x` only in the unmodelled hex case.) -/
def jsParseInt (l : List Char) : Option Int :=
  match l.dropWhile Char.isWhitespace with
  | '-' :: rest => (parseIntDigits rest none).map (fun n => -(n : Int))
  | '+' :: rest => (parseIntDigits rest none).map (fun n => (n : Int))
  | rest => (parseIntDigits rest none).map (fun n => (n : Int))

/-- Model of `String.prototype.padStart(len, c)`. -/
def padStart (len : Nat) (c : Char) (l : List Char) : List Char :=
  List.replicate (len - l.length) c ++ l

/-- Model of `String.prototype.padEnd(len, c)`. -/
def padEnd (len : Nat) (c : Char) (l : List Char) : List Char :=
  l ++ List.replicate (len - l.length) c

/-- Decimal representation of a natural number, by repeated division; the fuel
argument keeps the recursion structural (any fuel above the digit count gives
the representation). -/
def natReprAux : Nat → Nat → List Char
  | 0, _ => []
  | fuel + 1, n =>
    if n < 10 then [Nat.digitChar n]
    else natReprAux fuel (n / 10) ++ [Nat.digitChar (n % 10)]

/-- Model of JavaScript `Number.prototype.toString()` on integral values:
standard decimal representation, with a leading minus sign when negative. -/
def intRepr (z : Int) : List Char :=
  if z < 0 then '-' :: natReprAux (z.natAbs + 1) z.natAbs
  else natReprAux (z.toNat + 1) z.toNat

/-- Model of JavaScript `Math.trunc`-style rounding used by the `%` operator:
toward zero. -/
def jsTrunc (q : ℚ) : Int :=
  if q < 0 then ⌈q⌉ else ⌊q⌋

/-- Model of the JavaScript remainder operator `a % b`: the remainder keeps the
sign of the dividend (`a - b * trunc(a / b)`). -/
def jsRem (a b : ℚ) : ℚ :=
  a - b * (jsTrunc (a / b) : ℚ)

/-- Model of `formatTime`: `MM:SS.mmm` with
`mins = Math.floor(seconds / 60)`, `secs = Math.floor(seconds % 60)`,
`ms = Math.floor((seconds % 1) * 1000)`, each zero-padded. -/
def formatTime (seconds : ℚ) : List Char :=
  padStart 2 '0' (intRepr ⌊seconds / 60⌋) ++
    ':' :: (padStart 2 '0' (intRepr ⌊jsRem seconds 60⌋) ++
      '.' :: padStart 3 '0' (intRepr ⌊jsRem seconds 1 * 1000⌋))

/-- Model of `parseTime`: split on `':'`; anything but exactly two parts gives
`0`; otherwise parse minutes, then split the second part on `'.'` into seconds
and milliseconds, every failed `parseInt` defaulting to `0` via `|| 0`. -/
def parseTime (timeString : List Char) : ℚ :=
  let parts := splitP (fun c => c == ':') timeString
  if parts.length ≠ 2 then 0
  else
    let minutes : Int := (jsParseInt (parts.getD 0 [])).getD 0
    let secondsParts := splitP (fun c => c == '.') (parts.getD 1 [])
    let seconds : Int := (jsParseInt (secondsParts.getD 0 [])).getD 0
    let milliseconds : Int :=
      match secondsParts.get? 1 with
      | none => 0
      | some sp => (jsParseInt (List.take 3 (padEnd 3 '0' sp))).getD 0
    ((minutes * 60 + seconds : Int) : ℚ) + (milliseconds : ℚ) / 1000

/-- Tokenization as the specification's words describe it (for comparison with
the implementation's `tokenize`): split the transcript on whitespace and
discard empty tokens. -/
def specTokenize (text : List Char) : List (List Char) :=
  (splitP (fun c => c.isWhitespace) text).filter (fun w => !w.isEmpty)

/-- The exact `MM:SS.mmm` shape of the export time format: minutes at least two
digits (no upper bound), exactly two digits of seconds, exactly three digits of
milliseconds. -/
def timeShape (l : List Char) : Prop :=
  let parts := splitP (fun c => c == ':') l
  parts.length = 2 ∧
    2 ≤ (parts.getD 0 []).length ∧ (parts.getD 0 []).all isDigitChar = true ∧
    (splitP (fun c => c == '.') (parts.getD 1 [])).length = 2 ∧
    ((splitP (fun c => c == '.') (parts.getD 1 [])).getD 0 []).length = 2 ∧
    ((splitP (fun c => c == '.') (parts.getD 1 [])).getD 0 []).all isDigitChar = true ∧
    ((splitP (fun c => c == '.') (parts.getD 1 [])).getD 1 []).length = 3 ∧
    ((splitP (fun c => c == '.') (parts.getD 1 [])).getD 1 []).all isDigitChar = true

instance (l : List Char) : Decidable (timeShape l) := by
  unfold timeShape
  infer_instance

/-! ### Lemmas about `splitP` -/

theorem splitP_ne_nil (p : Char → Bool) (l : List Char) : splitP p l ≠ [] := by
  cases l with
  | nil => simp [splitP]
  | cons c cs =>
    simp only [splitP]
    split
    · simp
    · split <;> simp

theorem splitP_no_delim (p : Char → Bool) (l : List Char)
    (h : ∀ c ∈ l, p c = false) : splitP p l = [l] := by
  induction l with
  | nil => rfl
  | cons c cs ih =>
    have hc : p c = false := h c (List.mem_cons_self c cs)
    have hcs : splitP p cs = [cs] := ih (fun x hx => h x (List.mem_cons_of_mem c hx))
    simp [splitP, hc, hcs]

theorem splitP_append (p : Char → Bool) (l₁ l₂ : List Char) (d : Char)
    (h₁ : ∀ c ∈ l₁, p c = false) (hd : p d = true) :
    splitP p (l₁ ++ d :: l₂) = l₁ :: splitP p l₂ := by
  induction l₁ with
  | nil => simp [splitP, hd]
  | cons c cs ih =>
    have hc : p c = false := h₁ c (List.mem_cons_self c cs)
    have hcs : splitP p (cs ++ d :: l₂) = cs :: splitP p l₂ :=
      ih (fun x hx => h₁ x (List.mem_cons_of_mem c hx))
    simp [splitP, hc, hcs]

theorem splitP_part_chars (p : Char → Bool) (l : List Char) :
    ∀ part ∈ splitP p l, ∀ c ∈ part, p c = false ∧ c ∈ l := by
  induction l with
  | nil =>
    intro part hpart c hc
    simp only [splitP, List.mem_singleton] at hpart
    subst hpart
    simp at hc
  | cons a as ih =>
    intro part hpart c hc
    simp only [splitP] at hpart
    by_cases ha : p a = true
    · rw [if_pos ha] at hpart
      rcases List.mem_cons.1 hpart with h | h
      · subst h; simp at hc
      · obtain ⟨hpc, hcl⟩ := ih part h c hc
        exact ⟨hpc, List.mem_cons_of_mem a hcl⟩
    · rw [if_neg ha] at hpart
      rcases hsplit : splitP p as with _ | ⟨p0, ps⟩
      · exact absurd hsplit (splitP_ne_nil p as)
      · rw [hsplit] at hpart
        rcases List.mem_cons.1 hpart with h | h
        · subst h
          rcases List.mem_cons.1 hc with h | h
          · subst h
            exact ⟨by simpa using ha, List.mem_cons_self c as⟩
          · obtain ⟨hpc, hcl⟩ := ih p0 (hsplit ▸ List.mem_cons_self p0 ps) c h
            exact ⟨hpc, List.mem_cons_of_mem a hcl⟩
        · obtain ⟨hpc, hcl⟩ := ih part (hsplit ▸ List.mem_cons_of_mem p0 h) c hc
          exact ⟨hpc, List.mem_cons_of_mem a hcl⟩

/-! ### First-match characterization of `List.find?` -/

theorem find_first_split {α : Type} (p : α → Bool) (l : List α) (a : α) :
    l.find? p = some a ↔
      ∃ l₁ l₂, l = l₁ ++ a :: l₂ ∧ p a = true ∧ ∀ x ∈ l₁, p x = false := by
  induction l with
  | nil =>
    constructor
    · intro h; simp [List.find?] at h
    · rintro ⟨l₁, l₂, h, -, -⟩
      exact absurd h (by simp)
  | cons c cs ih =>
    by_cases hc : p c = true
    · rw [List.find?_cons_of_pos _ hc]
      constructor
      · intro h
        obtain rfl : c = a := by injection h
        exact ⟨[], cs, rfl, hc, by simp⟩
      · rintro ⟨l₁, l₂, heq, hpa, hfirst⟩
        cases l₁ with
        | nil =>
          obtain rfl : c = a := by simpa using congrArg (List.head? ·) heq
          rfl
        | cons y ys =>
          obtain rfl : c = y := by simpa using congrArg (List.head? ·) heq
          exact absurd hc (by simp [hfirst c (List.mem_cons_self c ys)])
    · rw [List.find?_cons_of_neg _ hc]
      rw [ih]
      constructor
      · rintro ⟨l₁, l₂, heq, hpa, hfirst⟩
        refine ⟨c :: l₁, l₂, by rw [heq]; rfl, hpa, ?_⟩
        intro x hx
        rcases List.mem_cons.1 hx with h | h
        · subst h; simpa using hc
        · exact hfirst x h
      · rintro ⟨l₁, l₂, heq, hpa, hfirst⟩
        cases l₁ with
        | nil =>
          obtain rfl : c = a := by simpa using congrArg (List.head? ·) heq
          exact absurd hpa hc
        | cons y ys =>
          obtain rfl : c = y := by simpa using congrArg (List.head? ·) heq
          refine ⟨ys, l₂, by simpa using heq, hpa, ?_⟩
          intro x hx
          exact hfirst x (List.mem_cons_of_mem c hx)

/-! ### Lemmas about the segmentation pipeline -/

theorem redistributeAux_length (d : ℚ) (n : Nat) :
    ∀ (l : List Subtitle) (k : Nat), (redistributeAux d n k l).length = l.length := by
  intro l
  induction l with
  | nil => intro k; rfl
  | cons s rest ih => intro k; simp [redistributeAux, ih]

theorem redistributeAux_get? (d : ℚ) (n : Nat) :
    ∀ (l : List Subtitle) (k i : Nat),
      (redistributeAux d n k l).get? i =
        (l.get? i).map (fun s =>
          { s with
            startTime := ((k + i : Nat) : ℚ) * (d / (n : ℚ)),
            endTime := min ((((k + i : Nat) : ℚ) + 1) * (d / (n : ℚ))) d }) := by
  intro l
  induction l with
  | nil => intro k i; simp [redistributeAux]
  | cons s rest ih =>
    intro k i
    cases i with
    | zero => simp [redistributeAux]
    | succ j =>
      have harg : k + 1 + j = k + (j + 1) := by omega
      simp only [redistributeAux, List.get?_cons_succ, ih (k + 1) j, harg]

theorem chunk4_ne_nil (l : List (List Char)) (h : l ≠ []) : chunk4 l ≠ [] := by
  match l with
  | [] => exact absurd rfl h
  | [a] => simp [chunk4]
  | [a, b] => simp [chunk4]
  | [a, b, c] => simp [chunk4]
  | a :: b :: c :: d :: rest => simp [chunk4]

theorem buildCues_eq_nil_of_nonpos (d : ℚ) (hd : d ≤ 0) (l : List (List (List Char))) :
    buildCues d 0 l = [] := by
  cases l with
  | nil => rfl
  | cons w ws =>
    have h0 : ((0 : Nat) : ℚ) * baseSegmentDuration ≥ d := by
      push_cast
      rw [zero_mul]
      exact hd
    simp only [buildCues]
    rw [if_pos h0]

theorem buildCues_cons_of_pos (d : ℚ) (hd : 0 < d) (w : List (List Char))
    (ws : List (List (List Char))) : buildCues d 0 (w :: ws) ≠ [] := by
  have h0 : ¬ (((0 : Nat) : ℚ) * baseSegmentDuration ≥ d) := by
    push_cast
    rw [zero_mul]
    exact not_le.mpr hd
  simp only [buildCues]
  rw [if_neg h0]
  simp

/-- Every element of `l.dropWhile p` comes from `l`, and every element of `l`
that fails `p` survives into `l.dropWhile p`. -/
theorem mem_dropWhile_of_not {α : Type} (p : α → Bool) (l : List α) (x : α)
    (hx : x ∈ l) (hpx : p x = false) : x ∈ l.dropWhile p := by
  induction l with
  | nil => simp at hx
  | cons a as ih =>
    by_cases ha : p a = true
    · rw [List.dropWhile_cons_of_pos ha]
      rcases List.mem_cons.1 hx with h | h
      · subst h; rw [hpx] at ha; simp at ha
      · exact ih h
    · rw [List.dropWhile_cons_of_neg ha]
      exact hx

theorem jsTrim_length_pos_iff (w : List Char) :
    0 < (jsTrim w).length ↔ ∃ c ∈ w, c.isWhitespace = false := by
  constructor
  · intro h
    by_contra hall
    push_neg at hall
    have hws : ∀ c ∈ w, Char.isWhitespace c = true := by
      intro c hc
      have := hall c hc
      revert this
      cases Char.isWhitespace c <;> simp
    have h1 : w.dropWhile Char.isWhitespace = [] := by
      rw [List.dropWhile_eq_nil_iff]
      exact hws
    rw [jsTrim, h1] at h
    simp at h
  · rintro ⟨c, hc, hpc⟩
    have h1 : c ∈ w.dropWhile Char.isWhitespace := mem_dropWhile_of_not _ w c hc hpc
    have h2 : c ∈ (w.dropWhile Char.isWhitespace).reverse := List.mem_reverse.mpr h1
    have h3 : c ∈ (w.dropWhile Char.isWhitespace).reverse.dropWhile Char.isWhitespace :=
      mem_dropWhile_of_not _ _ c h2 hpc
    have h4 : c ∈ jsTrim w := List.mem_reverse.mpr h3
    exact List.length_pos.mpr (List.ne_nil_of_mem h4)

/-! ### Decimal digit-string evaluation lemmas (by finite check) -/

theorem pad2_intRepr (n : Nat) (h : n < 100) :
    padStart 2 '0' (intRepr (n : Int)) = [Nat.digitChar (n / 10), Nat.digitChar (n % 10)] := by
  revert n
  decide

theorem pad3_intRepr (n : Nat) (h : n < 1000) :
    padStart 3 '0' (intRepr (n : Int)) =
      [Nat.digitChar (n / 100), Nat.digitChar (n / 10 % 10), Nat.digitChar (n % 10)] := by
  revert n
  decide

theorem jsParseInt_two_digits (n : Nat) (h : n < 100) :
    (jsParseInt [Nat.digitChar (n / 10), Nat.digitChar (n % 10)]).getD 0 = (n : Int) := by
  revert n
  decide

theorem jsParseInt_three_digits (n : Nat) (h : n < 1000) :
    (jsParseInt (List.take 3 (padEnd 3 '0'
      [Nat.digitChar (n / 100), Nat.digitChar (n / 10 % 10), Nat.digitChar (n % 10)]))).getD 0
      = (n : Int) := by
  revert n
  decide

theorem digitChar_not_sep (n : Nat) (h : n < 10) :
    ((Nat.digitChar n == ':') = false) ∧ ((Nat.digitChar n == '.') = false) := by
  revert n
  decide

/-- Helper: when no cue has the target id, `updateSubtitleText` returns the
list unchanged. -/
theorem updateSubtitleText_of_no_match (subs : List Subtitle) (tid newText : String)
    (h : ∀ s ∈ subs, s.id ≠ tid) : updateSubtitleText tid newText subs = subs := by
  induction subs with
  | nil => rfl
  | cons s rest ih =>
    have hs : s.id ≠ tid := h s (List.mem_cons_self s rest)
    have hrest := ih (fun x hx => h x (List.mem_cons_of_mem s hx))
    simp only [updateSubtitleText] at hrest ⊢
    rw [List.map_cons, if_neg hs, hrest]

/-- C1: for the transcript "one two three four five six seven eight" and
totalDuration 10, segmentation produces exactly 2 windows of 4 words each
before redistribution, and the final cue list is the uniform split at 5s with
sequential ids (`subtitle-0`, `subtitle-1`) and the claimed texts. -/
theorem c1_end_to_end_scenario :
    (chunk4 (tokenize "one two three four five six seven eight".data)).map List.length
        = [4, 4] ∧
    (buildCues 10 0 (chunk4 (tokenize "one two three four five six seven eight".data))).length
        = 2 ∧
    segmentTranscript "one two three four five six seven eight".data 10 =
      [⟨"subtitle-0", 0, 5, "one two three four"⟩,
       ⟨"subtitle-1", 5, 10, "five six seven eight"⟩] := by
  refine ⟨by decide, by with_unfolding_all decide, by with_unfolding_all decide⟩

/-- C4: the active cue is the first cue in list order with
`t >= startTime && t <= endTime` (both bounds inclusive), `none` when no cue
qualifies; at `t = 2` on `[{0,2},{2,4}]` the first cue wins the boundary tie. -/
theorem c4_active_cue_lookup (subs : List Subtitle) (t : ℚ) :
    (findCurrentSub subs t = none ↔ ∀ c ∈ subs, ¬ (t ≥ c.startTime ∧ t ≤ c.endTime)) ∧
    (∀ c, findCurrentSub subs t = some c ↔
      ∃ pre post, subs = pre ++ c :: post ∧ (t ≥ c.startTime ∧ t ≤ c.endTime) ∧
        ∀ b ∈ pre, ¬ (t ≥ b.startTime ∧ t ≤ b.endTime)) ∧
    findCurrentSub [⟨"subtitle-0", 0, 2, "one"⟩, ⟨"subtitle-1", 2, 4, "two"⟩] 2 =
      some ⟨"subtitle-0", 0, 2, "one"⟩ := by
  have hbool : ∀ b : Subtitle,
      ((decide (t ≥ b.startTime) && decide (t ≤ b.endTime)) = true) ↔
        (t ≥ b.startTime ∧ t ≤ b.endTime) := by
    intro b; simp
  refine ⟨?_, ?_, by with_unfolding_all decide⟩
  · rw [findCurrentSub, List.find?_eq_none]
    constructor
    · intro h c hc
      have := h c hc
      rw [hbool c] at this
      exact this
    · intro h c hc
      rw [hbool c]
      exact h c hc
  · intro c
    rw [findCurrentSub, find_first_split]
    constructor
    · rintro ⟨pre, post, heq, hpc, hfirst⟩
      refine ⟨pre, post, heq, (hbool c).1 hpc, ?_⟩
      intro b hb
      have := hfirst b hb
      rw [← hbool b]
      simp [this]
    · rintro ⟨pre, post, heq, hpc, hfirst⟩
      refine ⟨pre, post, heq, (hbool c).2 hpc, ?_⟩
      intro b hb
      have := hfirst b hb
      rw [← hbool b] at this
      simpa using this

/-- Witness for C4: the boundary tie at t = 2 goes to the first cue, and a
position outside every cue has no active cue. -/
theorem c4_active_cue_lookup_witness :
    findCurrentSub [⟨"subtitle-0", 0, 2, "one"⟩, ⟨"subtitle-1", 2, 4, "two"⟩] 2 =
      some ⟨"subtitle-0", 0, 2, "one"⟩ ∧
    findCurrentSub [⟨"subtitle-0", 0, 2, "one"⟩, ⟨"subtitle-1", 2, 4, "two"⟩] 5 = none :=
  ⟨(c4_active_cue_lookup [⟨"subtitle-0", 0, 2, "one"⟩, ⟨"subtitle-1", 2, 4, "two"⟩] 2).2.2,
   (c4_active_cue_lookup [⟨"subtitle-0", 0, 2, "one"⟩, ⟨"subtitle-1", 2, 4, "two"⟩] 5).1.mpr
     (by with_unfolding_all decide)⟩

/-- C5 counterexample: `"1:"` is not of the `MM:SS.mmm` shape, yet `parseTime`
returns 60, not 0 — so parseTime does not return 0 on every other shape. -/
theorem c5_counterexample :
    ¬ timeShape "1:".data ∧ parseTime "1:".data = 60 ∧ (60 : ℚ) ≠ 0 :=
  ⟨by decide, by with_unfolding_all decide, by norm_num⟩

/-- C5 (amended): `parseTime` returns 0, without throwing, for every input that
does not split on `':'` into exactly two parts — in particular
`parseTime "not-a-time" = 0`; two-part inputs are parsed leniently, each
unparsable component defaulting to 0 (so some non-`MM:SS.mmm` inputs parse to a
nonzero time). -/
theorem c5_amended_lenient_parse :
    (∀ l : List Char, (splitP (fun c => c == ':') l).length ≠ 2 → parseTime l = 0) ∧
    parseTime "not-a-time".data = 0 := by
  constructor
  · intro l h
    simp only [parseTime]
    rw [if_pos h]
  · with_unfolding_all decide

/-- Witness for the amended C5 at the concrete input "not-a-time". -/
theorem c5_amended_lenient_parse_witness :
    (splitP (fun c => c == ':') "not-a-time".data).length ≠ 2 ∧
      parseTime "not-a-time".data = 0 :=
  ⟨by decide, c5_amended_lenient_parse.1 "not-a-time".data (by decide)⟩

/-- C6 counterexample: for the cue `{start: 0, end: 0.3}` (a legal cue with
start < end), nudging the end time by -0.5s produces exactly
`end = start + 0.1`, so `end <= start + 0.1` does occur. -/
theorem c6_counterexample :
    (Subtitle.mk "subtitle-0" 0 0.3 "w").startTime
        < (Subtitle.mk "subtitle-0" 0 0.3 "w").endTime ∧
    nudgeEndDown (Subtitle.mk "subtitle-0" 0 0.3 "w") ≤
      (Subtitle.mk "subtitle-0" 0 0.3 "w").startTime + 0.1 := by
  with_unfolding_all decide

/-- C6 (amended): nudging a cue's end time by -0.5s never produces
`end < start + 0.1` (the result is always at least `start + 0.1`, with equality
possible), and nudging by +0.5s never produces `end > totalDuration`. -/
theorem c6_amended_nudge_clamp (sub : Subtitle) (duration : ℚ)
    (h : sub.startTime < sub.endTime) :
    sub.startTime + 0.1 ≤ nudgeEndDown sub ∧ nudgeEndUp duration sub ≤ duration :=
  ⟨le_max_left _ _, min_le_left _ _⟩

/-- Witness for the amended C6 at a concrete cue and duration. -/
theorem c6_amended_nudge_clamp_witness :
    (Subtitle.mk "subtitle-0" 0 3 "w").startTime
        < (Subtitle.mk "subtitle-0" 0 3 "w").endTime ∧
    (Subtitle.mk "subtitle-0" 0 3 "w").startTime + 0.1
        ≤ nudgeEndDown (Subtitle.mk "subtitle-0" 0 3 "w") ∧
    nudgeEndUp 10 (Subtitle.mk "subtitle-0" 0 3 "w") ≤ 10 :=
  ⟨by norm_num,
   (c6_amended_nudge_clamp (Subtitle.mk "subtitle-0" 0 3 "w") 10 (by norm_num)).1,
   (c6_amended_nudge_clamp (Subtitle.mk "subtitle-0" 0 3 "w") 10 (by norm_num)).2⟩

/-- C7: when the provider call throws or rejects, the completed
`transcribeAudio` run leaves the cue list exactly as it was, and only resets
the transcription flag and progress indicator. -/
theorem c7_failure_preserves_subtitles (st : EditorState) (duration : ℚ) (msg : String) :
    (transcribeAudioRun st duration (Except.error msg)).subtitles = st.subtitles ∧
    (transcribeAudioRun st duration (Except.error msg)).isTranscribing = false ∧
    (transcribeAudioRun st duration (Except.error msg)).transcriptionProgress = 0 :=
  ⟨rfl, rfl, rfl⟩

/-- C9: `updateSubtitleText` keeps the list length, replaces verbatim the text
of exactly the cues whose id matches while preserving their id and both time
bounds, leaves non-matching cues entirely unchanged, and is the identity when
no cue has the given id. -/
theorem c9_set_text (subs : List Subtitle) (tid newText : String) :
    (updateSubtitleText tid newText subs).length = subs.length ∧
    (∀ i s s', subs.get? i = some s →
      (updateSubtitleText tid newText subs).get? i = some s' →
      s'.id = s.id ∧ s'.startTime = s.startTime ∧ s'.endTime = s.endTime ∧
        s'.text = (if s.id = tid then newText else s.text)) ∧
    ((∀ s ∈ subs, s.id ≠ tid) → updateSubtitleText tid newText subs = subs) := by
  refine ⟨by simp [updateSubtitleText], ?_, updateSubtitleText_of_no_match subs tid newText⟩
  intro i s s' hs hs'
  rw [updateSubtitleText, List.get?_map, hs] at hs'
  have hfs : (if s.id = tid then { s with text := newText } else s) = s' :=
    Option.some.inj hs'
  subst hfs
  by_cases hid : s.id = tid
  · simp [hid]
  · simp [hid]

/-- Helper: for a transcript with at least one token and a positive duration,
`segmentTranscript` is `redistributeAux` over a non-empty provisional cue
list. -/
theorem segmentTranscript_eq_aux (text : List Char) (d : ℚ)
    (htok : tokenize text ≠ []) (hd : 0 < d) :
    buildCues d 0 (chunk4 (tokenize text)) ≠ [] ∧
    segmentTranscript text d =
      redistributeAux d (buildCues d 0 (chunk4 (tokenize text))).length 0
        (buildCues d 0 (chunk4 (tokenize text))) := by
  have hchunk := chunk4_ne_nil _ htok
  obtain ⟨w, ws, hws⟩ := List.exists_cons_of_ne_nil hchunk
  have hbne : buildCues d 0 (chunk4 (tokenize text)) ≠ [] := by
    rw [hws]; exact buildCues_cons_of_pos d hd w ws
  have hlen : 0 < (buildCues d 0 (chunk4 (tokenize text))).length := List.length_pos.mpr hbne
  exact ⟨hbne, by rw [segmentTranscript, redistribute, if_pos hlen]⟩

/-- C2: for every transcript with at least one non-whitespace token and every
positive totalDuration, segmentation returns a non-empty cue list whose first
cue starts at 0 and whose last cue ends at totalDuration. -/
theorem c2_segmentation_bounds (text : List Char) (d : ℚ)
    (htok : tokenize text ≠ []) (hd : 0 < d) :
    segmentTranscript text d ≠ [] ∧
    (segmentTranscript text d).head?.map Subtitle.startTime = some 0 ∧
    (segmentTranscript text d).getLast?.map Subtitle.endTime = some d := by
  obtain ⟨hbne, hseg⟩ := segmentTranscript_eq_aux text d htok hd
  obtain ⟨b, bs, hbs⟩ := List.exists_cons_of_ne_nil hbne
  have hn : 0 < (buildCues d 0 (chunk4 (tokenize text))).length := List.length_pos.mpr hbne
  have hnq : ((buildCues d 0 (chunk4 (tokenize text))).length : ℚ) ≠ 0 :=
    Nat.cast_ne_zero.mpr (by omega)
  have hsegne : segmentTranscript text d ≠ [] := by
    rw [hseg]
    intro hcontra
    have := redistributeAux_length d (buildCues d 0 (chunk4 (tokenize text))).length
      (buildCues d 0 (chunk4 (tokenize text))) 0
    rw [hcontra] at this
    simp at this
    omega
  refine ⟨hsegne, ?_, ?_⟩
  · rw [hseg]
    conv_lhs => rw [hbs]
    simp [redistributeAux]
  · have hlenseg : (segmentTranscript text d).length =
        (buildCues d 0 (chunk4 (tokenize text))).length := by
      rw [hseg, redistributeAux_length]
    rw [List.getLast?_eq_get?, hlenseg, hseg, redistributeAux_get?]
    have hidx : (buildCues d 0 (chunk4 (tokenize text))).length - 1 <
        (buildCues d 0 (chunk4 (tokenize text))).length := by omega
    rw [List.get?_eq_get hidx]
    simp only [Option.map_some']
    congr 1
    have hcast : ((0 + ((buildCues d 0 (chunk4 (tokenize text))).length - 1) : Nat) : ℚ) + 1 =
        ((buildCues d 0 (chunk4 (tokenize text))).length : ℚ) := by
      rw [Nat.zero_add, Nat.cast_sub (by omega)]
      ring
    rw [hcast, mul_comm, div_mul_cancel₀ d hnq, min_self]

/-- Witness for C2 at the transcript "hello" and totalDuration 10. -/
theorem c2_segmentation_bounds_witness :
    tokenize "hello".data ≠ [] ∧ (0 : ℚ) < 10 ∧
    segmentTranscript "hello".data 10 ≠ [] ∧
    (segmentTranscript "hello".data 10).head?.map Subtitle.startTime = some 0 ∧
    (segmentTranscript "hello".data 10).getLast?.map Subtitle.endTime = some 10 := by
  refine ⟨by decide, by norm_num, ?_⟩
  exact ⟨(c2_segmentation_bounds "hello".data 10 (by decide) (by norm_num)).1,
    (c2_segmentation_bounds "hello".data 10 (by decide) (by norm_num)).2.1,
    (c2_segmentation_bounds "hello".data 10 (by decide) (by norm_num)).2.2⟩

/-- C10: after the redistribution pass the cue list is exactly contiguous
(each cue's end equals the next cue's start), and when totalDuration is
positive every cue has start < end and the starts are strictly increasing. -/
theorem c10_uniform_partition (text : List Char) (d : ℚ) :
    (∀ k a b, (segmentTranscript text d).get? k = some a →
        (segmentTranscript text d).get? (k + 1) = some b → a.endTime = b.startTime) ∧
    (0 < d →
      (∀ c ∈ segmentTranscript text d, c.startTime < c.endTime) ∧
      (∀ j k a b, j < k → (segmentTranscript text d).get? j = some a →
        (segmentTranscript text d).get? k = some b → a.startTime < b.startTime)) := by
  by_cases hbne : buildCues d 0 (chunk4 (tokenize text)) = []
  · have hseg : segmentTranscript text d = [] := by
      rw [segmentTranscript, hbne, redistribute]
      simp
    rw [hseg]
    refine ⟨?_, ?_⟩
    · intro k a b ha _
      simp at ha
    · intro _
      refine ⟨by simp, ?_⟩
      intro j k a b _ ha _
      simp at ha
  · have hd : 0 < d := by
      by_contra hle
      exact hbne (buildCues_eq_nil_of_nonpos d (not_lt.mp hle) _)
    have htok : tokenize text ≠ [] := by
      intro htok
      apply hbne
      rw [htok]
      rfl
    obtain ⟨-, hseg⟩ := segmentTranscript_eq_aux text d htok hd
    have hn : 0 < (buildCues d 0 (chunk4 (tokenize text))).length := by
      exact List.length_pos.mpr hbne
    have hnq : (0 : ℚ) < ((buildCues d 0 (chunk4 (tokenize text))).length : ℚ) := by
      exact_mod_cast hn
    have hstep : (0 : ℚ) < d / ((buildCues d 0 (chunk4 (tokenize text))).length : ℚ) :=
      div_pos hd hnq
    have hget : ∀ i a, (segmentTranscript text d).get? i = some a →
        i < (buildCues d 0 (chunk4 (tokenize text))).length ∧
        a.startTime = (i : ℚ) * (d / ((buildCues d 0 (chunk4 (tokenize text))).length : ℚ)) ∧
        a.endTime = min (((i : ℚ) + 1) *
          (d / ((buildCues d 0 (chunk4 (tokenize text))).length : ℚ))) d := by
      intro i a ha
      rw [hseg, redistributeAux_get?] at ha
      obtain ⟨a₀, ha₀, hfa⟩ := Option.map_eq_some'.1 ha
      have hi : i < (buildCues d 0 (chunk4 (tokenize text))).length := by
        by_contra hge
        rw [List.get?_eq_none.mpr (by omega)] at ha₀
        exact Option.noConfusion ha₀
      refine ⟨hi, ?_, ?_⟩
      · rw [← hfa]; simp
      · rw [← hfa]; simp
    constructor
    · intro k a b ha hb
      obtain ⟨hk, -, haend⟩ := hget k a ha
      obtain ⟨hk1, hbstart, -⟩ := hget (k + 1) b hb
      rw [haend, hbstart]
      have hle : ((k : ℚ) + 1) * (d / ((buildCues d 0 (chunk4 (tokenize text))).length : ℚ)) ≤ d := by
        have h1 : ((k : ℚ) + 1) ≤ ((buildCues d 0 (chunk4 (tokenize text))).length : ℚ) := by
          exact_mod_cast Nat.le_of_lt hk1
        calc ((k : ℚ) + 1) * (d / ((buildCues d 0 (chunk4 (tokenize text))).length : ℚ))
            ≤ ((buildCues d 0 (chunk4 (tokenize text))).length : ℚ) *
              (d / ((buildCues d 0 (chunk4 (tokenize text))).length : ℚ)) :=
              mul_le_mul_of_nonneg_right h1 (le_of_lt hstep)
          _ = d := by rw [mul_comm, div_mul_cancel₀ d (ne_of_gt hnq)]
      rw [min_eq_left hle]
      push_cast
      ring
    · intro _
      constructor
      · intro c hc
        obtain ⟨i, hi⟩ := List.mem_iff_get?.1 hc
        obtain ⟨hilt, hstart, hend⟩ := hget i c hi
        rw [hstart, hend]
        refine lt_min ?_ ?_
        · exact mul_lt_mul_of_pos_right (by linarith) hstep
        · have h1 : (i : ℚ) < ((buildCues d 0 (chunk4 (tokenize text))).length : ℚ) := by
            exact_mod_cast hilt
          calc (i : ℚ) * (d / ((buildCues d 0 (chunk4 (tokenize text))).length : ℚ))
              < ((buildCues d 0 (chunk4 (tokenize text))).length : ℚ) *
                (d / ((buildCues d 0 (chunk4 (tokenize text))).length : ℚ)) :=
                mul_lt_mul_of_pos_right h1 hstep
            _ = d := by rw [mul_comm, div_mul_cancel₀ d (ne_of_gt hnq)]
      · intro j k a b hjk ha hb
        obtain ⟨-, hastart, -⟩ := hget j a ha
        obtain ⟨-, hbstart, -⟩ := hget k b hb
        rw [hastart, hbstart]
        exact mul_lt_mul_of_pos_right (by exact_mod_cast hjk) hstep

/-- Witness for C10 at the transcript "one two three four five" and
totalDuration 10. -/
theorem c10_uniform_partition_witness :
    (segmentTranscript "one two three four five".data 10).get? 0 =
        some ⟨"subtitle-0", 0, 5, "one two three four"⟩ ∧
    (segmentTranscript "one two three four five".data 10).get? 1 =
        some ⟨"subtitle-1", 5, 10, "five"⟩ ∧
    (Subtitle.mk "subtitle-0" 0 5 "one two three four").endTime =
        (Subtitle.mk "subtitle-1" 5 10 "five").startTime ∧
    (0 : ℚ) < 10 ∧
    (Subtitle.mk "subtitle-0" 0 5 "one two three four").startTime <
        (Subtitle.mk "subtitle-0" 0 5 "one two three four").endTime := by
  have h0 : (segmentTranscript "one two three four five".data 10).get? 0 =
      some ⟨"subtitle-0", 0, 5, "one two three four"⟩ := by with_unfolding_all decide
  have h1 : (segmentTranscript "one two three four five".data 10).get? 1 =
      some ⟨"subtitle-1", 5, 10, "five"⟩ := by with_unfolding_all decide
  refine ⟨h0, h1, (c10_uniform_partition "one two three four five".data 10).1 0 _ _ h0 h1,
    by norm_num, ?_⟩
  refine ((c10_uniform_partition "one two three four five".data 10).2 (by norm_num)).1 _ ?_
  rw [List.mem_iff_get?]
  exact ⟨0, h0⟩

/-- C8 counterexample: the transcript with a tab between two letters shows
that segmentation does NOT split on whitespace: the code's tokenizer keeps
"a\tb" as a single token where splitting on whitespace would give ["a", "b"],
and the produced cue text is "a\tb", not "a b". -/
theorem c8_counterexample :
    tokenize "a\tb".data ≠ specTokenize "a\tb".data ∧
    tokenize "a\tb".data = [['a', '\t', 'b']] ∧
    specTokenize "a\tb".data = [['a'], ['b']] ∧
    (segmentTranscript "a\tb".data 10).map Subtitle.text = ["a\tb"] :=
  ⟨by decide, by decide, by decide, by with_unfolding_all decide⟩

/-- C8 (amended): segmentation tokenizes by splitting on the space character
(U+0020) only and discarding tokens that are empty or whitespace-only: every
produced token contains a non-whitespace character and contains no space; and
for every transcript that is empty or consists only of whitespace characters
the result is an empty cue list (with no error — segmentation is total). -/
theorem c8_amended_tokenization (text : List Char) (d : ℚ) :
    ((∀ c ∈ text, c.isWhitespace = true) →
      tokenize text = [] ∧ segmentTranscript text d = []) ∧
    (∀ w ∈ tokenize text, (∃ c ∈ w, c.isWhitespace = false) ∧ ' ' ∉ w) := by
  constructor
  · intro hall
    have htok : tokenize text = [] := by
      rw [tokenize, List.filter_eq_nil]
      intro w hw
      have hchars : ∀ c ∈ w, Char.isWhitespace c = true := fun c hc =>
        hall c (splitP_part_chars _ text w hw c hc).2
      have hnotpos : ¬ (0 < (jsTrim w).length) := by
        rw [jsTrim_length_pos_iff]
        rintro ⟨c, hc, hf⟩
        rw [hchars c hc] at hf
        exact Bool.noConfusion hf
      simpa using hnotpos
    refine ⟨htok, ?_⟩
    rw [segmentTranscript, htok]
    rfl
  · intro w hw
    rw [tokenize, List.mem_filter] at hw
    obtain ⟨hmem, hfil⟩ := hw
    constructor
    · exact (jsTrim_length_pos_iff w).1 (of_decide_eq_true hfil)
    · intro hsp
      have := (splitP_part_chars _ text w hmem ' ' hsp).1
      simp at this

/-- Witness for the amended C8: a whitespace-only transcript gives an empty
token list and an empty cue list. -/
theorem c8_amended_tokenization_witness :
    (∀ c ∈ "  ".data, c.isWhitespace = true) ∧
    tokenize "  ".data = [] ∧ segmentTranscript "  ".data 10 = [] :=
  ⟨by decide, (c8_amended_tokenization "  ".data 10).1 (by decide)⟩

/-- Helper: neither digit of a two-digit group is a `':'` or `'.'`. -/
theorem two_digit_chars_not_sep (n : Nat) (h : n < 100) :
    ∀ c ∈ [Nat.digitChar (n / 10), Nat.digitChar (n % 10)],
      ((c == ':') = false) ∧ ((c == '.') = false) := by
  intro c hc
  have h10 : n / 10 < 10 := by omega
  have hmod : n % 10 < 10 := Nat.mod_lt _ (by norm_num)
  simp only [List.mem_cons, List.not_mem_nil, or_false] at hc
  rcases hc with rfl | rfl
  · exact digitChar_not_sep _ h10
  · exact digitChar_not_sep _ hmod

/-- Helper: no digit of a three-digit group is a `':'` or `'.'`. -/
theorem three_digit_chars_not_sep (n : Nat) (h : n < 1000) :
    ∀ c ∈ [Nat.digitChar (n / 100), Nat.digitChar (n / 10 % 10), Nat.digitChar (n % 10)],
      ((c == ':') = false) ∧ ((c == '.') = false) := by
  intro c hc
  have h100 : n / 100 < 10 := by omega
  have h10 : n / 10 % 10 < 10 := Nat.mod_lt _ (by norm_num)
  have hmod : n % 10 < 10 := Nat.mod_lt _ (by norm_num)
  simp only [List.mem_cons, List.not_mem_nil, or_false] at hc
  rcases hc with rfl | rfl | rfl
  · exact digitChar_not_sep _ h100
  · exact digitChar_not_sep _ h10
  · exact digitChar_not_sep _ hmod

/-- Helper: `parseTime` evaluated on a formatted `MM:SS.mmm` digit string
recovers `m * 60 + s + ms/1000`. -/
theorem parseTime_digit_string (m s ms : Nat) (hm : m < 100) (hs : s < 100)
    (hms : ms < 1000) :
    parseTime ([Nat.digitChar (m / 10), Nat.digitChar (m % 10)] ++
        ':' :: ([Nat.digitChar (s / 10), Nat.digitChar (s % 10)] ++
          '.' :: [Nat.digitChar (ms / 100), Nat.digitChar (ms / 10 % 10),
                  Nat.digitChar (ms % 10)])) =
      ((m : ℚ) * 60 + (s : ℚ)) + (ms : ℚ) / 1000 := by
  have hsplit1 : splitP (fun c => c == ':')
      ([Nat.digitChar (m / 10), Nat.digitChar (m % 10)] ++
        ':' :: ([Nat.digitChar (s / 10), Nat.digitChar (s % 10)] ++
          '.' :: [Nat.digitChar (ms / 100), Nat.digitChar (ms / 10 % 10),
                  Nat.digitChar (ms % 10)])) =
      [[Nat.digitChar (m / 10), Nat.digitChar (m % 10)],
       [Nat.digitChar (s / 10), Nat.digitChar (s % 10)] ++
          '.' :: [Nat.digitChar (ms / 100), Nat.digitChar (ms / 10 % 10),
                  Nat.digitChar (ms % 10)]] := by
    rw [splitP_append _ _ _ ':' (fun c hc => (two_digit_chars_not_sep m hm c hc).1) rfl,
      splitP_no_delim]
    intro c hc
    rcases List.mem_append.1 hc with h2 | h2
    · exact (two_digit_chars_not_sep s hs c h2).1
    · rcases List.mem_cons.1 h2 with rfl | h3
      · rfl
      · exact (three_digit_chars_not_sep ms hms c h3).1
  have hsplit2 : splitP (fun c => c == '.')
      ([Nat.digitChar (s / 10), Nat.digitChar (s % 10)] ++
        '.' :: [Nat.digitChar (ms / 100), Nat.digitChar (ms / 10 % 10),
                Nat.digitChar (ms % 10)]) =
      [[Nat.digitChar (s / 10), Nat.digitChar (s % 10)],
       [Nat.digitChar (ms / 100), Nat.digitChar (ms / 10 % 10), Nat.digitChar (ms % 10)]] := by
    rw [splitP_append _ _ _ '.' (fun c hc => (two_digit_chars_not_sep s hs c hc).2) rfl,
      splitP_no_delim]
    intro c hc
    exact (three_digit_chars_not_sep ms hms c hc).2
  rw [parseTime]
  simp only [hsplit1, List.length_cons, List.length_nil]
  rw [if_neg (by norm_num)]
  simp only [List.getD, List.get?_cons_zero, List.get?_cons_succ, Option.getD_some, hsplit2]
  rw [jsParseInt_two_digits m hm, jsParseInt_two_digits s hs, jsParseInt_three_digits ms hms]
  push_cast
  ring

/-- C3: for every time t in [0, 3600) seconds, `parseTime (formatTime t)`
reproduces t to within one millisecond (the round-trip value is
`⌊1000 t⌋ / 1000`, so the error is in `[0, 1/1000)`). -/
theorem c3_time_roundtrip (t : ℚ) (h0 : 0 ≤ t) (h1 : t < 3600) :
    |t - parseTime (formatTime t)| < 1 / 1000 := by
  have hm0 : (0 : ℤ) ≤ ⌊t / 60⌋ := Int.floor_nonneg.mpr (by positivity)
  have hm60 : ⌊t / 60⌋ < 60 := by
    apply Int.floor_lt.mpr
    rw [div_lt_iff (by norm_num : (0 : ℚ) < 60)]
    push_cast
    linarith
  have hdiv1 : t / 1 = t := div_one t
  have htr60 : jsTrunc (t / 60) = ⌊t / 60⌋ := by
    rw [jsTrunc, if_neg (not_lt.mpr (by positivity))]
  have htr1 : jsTrunc (t / 1) = ⌊t⌋ := by
    rw [jsTrunc, hdiv1, if_neg (not_lt.mpr h0)]
  have hrem60 : jsRem t 60 = t - 60 * (⌊t / 60⌋ : ℚ) := by
    rw [jsRem, htr60]
  have hrem1 : jsRem t 1 = t - (⌊t⌋ : ℚ) := by
    rw [jsRem, htr1]
    ring
  have hfloor_le : (⌊t / 60⌋ : ℚ) ≤ t / 60 := Int.floor_le _
  have hfloor_gt : t / 60 < (⌊t / 60⌋ : ℚ) + 1 := Int.lt_floor_add_one _
  have hr0 : 0 ≤ t - 60 * (⌊t / 60⌋ : ℚ) := by
    have h60 : 60 * (⌊t / 60⌋ : ℚ) ≤ 60 * (t / 60) :=
      mul_le_mul_of_nonneg_left hfloor_le (by norm_num)
    have : (60 : ℚ) * (t / 60) = t := by ring
    linarith
  have hr60 : t - 60 * (⌊t / 60⌋ : ℚ) < 60 := by
    have h60 : 60 * (t / 60) < 60 * ((⌊t / 60⌋ : ℚ) + 1) :=
      mul_lt_mul_of_pos_left hfloor_gt (by norm_num)
    have : (60 : ℚ) * (t / 60) = t := by ring
    linarith
  have hs0 : (0 : ℤ) ≤ ⌊jsRem t 60⌋ := by
    rw [hrem60]
    exact Int.floor_nonneg.mpr hr0
  have hs60 : ⌊jsRem t 60⌋ < 60 := by
    rw [hrem60]
    apply Int.floor_lt.mpr
    push_cast
    linarith
  have hf0 : 0 ≤ jsRem t 1 := by
    rw [hrem1]
    linarith [Int.floor_le t]
  have hf1 : jsRem t 1 < 1 := by
    rw [hrem1]
    linarith [Int.lt_floor_add_one t]
  have hms0 : (0 : ℤ) ≤ ⌊jsRem t 1 * 1000⌋ :=
    Int.floor_nonneg.mpr (mul_nonneg hf0 (by norm_num))
  have hms1000 : ⌊jsRem t 1 * 1000⌋ < 1000 := by
    apply Int.floor_lt.mpr
    push_cast
    nlinarith
  have hmc : (⌊t / 60⌋ : ℤ) = (⌊t / 60⌋.toNat : ℤ) := (Int.toNat_of_nonneg hm0).symm
  have hsc : (⌊jsRem t 60⌋ : ℤ) = (⌊jsRem t 60⌋.toNat : ℤ) := (Int.toNat_of_nonneg hs0).symm
  have hmsc : (⌊jsRem t 1 * 1000⌋ : ℤ) = (⌊jsRem t 1 * 1000⌋.toNat : ℤ) :=
    (Int.toNat_of_nonneg hms0).symm
  have hmlt : ⌊t / 60⌋.toNat < 100 := by omega
  have hslt : ⌊jsRem t 60⌋.toNat < 100 := by omega
  have hmslt : ⌊jsRem t 1 * 1000⌋.toNat < 1000 := by omega
  have hformat : formatTime t =
      [Nat.digitChar (⌊t / 60⌋.toNat / 10), Nat.digitChar (⌊t / 60⌋.toNat % 10)] ++
        ':' :: ([Nat.digitChar (⌊jsRem t 60⌋.toNat / 10),
                 Nat.digitChar (⌊jsRem t 60⌋.toNat % 10)] ++
          '.' :: [Nat.digitChar (⌊jsRem t 1 * 1000⌋.toNat / 100),
                  Nat.digitChar (⌊jsRem t 1 * 1000⌋.toNat / 10 % 10),
                  Nat.digitChar (⌊jsRem t 1 * 1000⌋.toNat % 10)]) := by
    conv_lhs => rw [formatTime, hmc, hsc, hmsc]
    rw [pad2_intRepr _ hmlt, pad2_intRepr _ hslt, pad3_intRepr _ hmslt]
  have hparse : parseTime (formatTime t) =
      ((⌊t / 60⌋.toNat : ℚ) * 60 + (⌊jsRem t 60⌋.toNat : ℚ)) +
        (⌊jsRem t 1 * 1000⌋.toNat : ℚ) / 1000 := by
    rw [hformat]
    exact parseTime_digit_string _ _ _ hmlt hslt hmslt
  have hs_eq : ⌊jsRem t 60⌋ = ⌊t⌋ - 60 * ⌊t / 60⌋ := by
    rw [hrem60]
    have harg : t - 60 * (⌊t / 60⌋ : ℚ) = t - ((60 * ⌊t / 60⌋ : ℤ) : ℚ) := by
      push_cast
      ring
    rw [harg, Int.floor_sub_int]
  have hq1 : (⌊t / 60⌋.toNat : ℚ) = (⌊t / 60⌋ : ℚ) := by
    exact_mod_cast congrArg (fun z : ℤ => (z : ℚ)) hmc.symm
  have hq2 : (⌊jsRem t 60⌋.toNat : ℚ) = (⌊jsRem t 60⌋ : ℚ) := by
    exact_mod_cast congrArg (fun z : ℤ => (z : ℚ)) hsc.symm
  have hq3 : (⌊jsRem t 1 * 1000⌋.toNat : ℚ) = (⌊jsRem t 1 * 1000⌋ : ℚ) := by
    exact_mod_cast congrArg (fun z : ℤ => (z : ℚ)) hmsc.symm
  rw [hparse, hq1, hq2, hq3]
  have hsq : (⌊jsRem t 60⌋ : ℚ) = (⌊t⌋ : ℚ) - 60 * (⌊t / 60⌋ : ℚ) := by
    exact_mod_cast congrArg (fun z : ℤ => (z : ℚ)) hs_eq
  rw [hsq]
  have hu_le : (⌊jsRem t 1 * 1000⌋ : ℚ) ≤ jsRem t 1 * 1000 := Int.floor_le _
  have hu_gt : jsRem t 1 * 1000 < (⌊jsRem t 1 * 1000⌋ : ℚ) + 1 := Int.lt_floor_add_one _
  have hdiff : t - (((⌊t / 60⌋ : ℚ) * 60 + ((⌊t⌋ : ℚ) - 60 * (⌊t / 60⌋ : ℚ))) +
      (⌊jsRem t 1 * 1000⌋ : ℚ) / 1000) =
      (t - (⌊t⌋ : ℚ)) - (⌊jsRem t 1 * 1000⌋ : ℚ) / 1000 := by
    ring
  rw [hdiff]
  have hnn : 0 ≤ (t - (⌊t⌋ : ℚ)) - (⌊jsRem t 1 * 1000⌋ : ℚ) / 1000 := by linarith
  rw [abs_of_nonneg hnn]
  linarith

/-- Witness for C3 at t = 125.5 seconds (= "02:05.500"). -/
theorem c3_time_roundtrip_witness :
    (0 : ℚ) ≤ 251 / 2 ∧ (251 / 2 : ℚ) < 3600 ∧
    |(251 / 2 : ℚ) - parseTime (formatTime (251 / 2))| < 1 / 1000 :=
  ⟨by norm_num, by norm_num, c3_time_roundtrip (251 / 2) (by norm_num) (by norm_num)⟩

/-- Witness for C9: text replaced on the matching cue, and identity when the
id is absent. -/
theorem c9_set_text_witness :
    updateSubtitleText "subtitle-0" "new"
        [⟨"subtitle-0", 0, 1, "old"⟩, ⟨"subtitle-1", 1, 2, "keep"⟩]
      = [⟨"subtitle-0", 0, 1, "new"⟩, ⟨"subtitle-1", 1, 2, "keep"⟩] ∧
    updateSubtitleText "absent" "new"
        [⟨"subtitle-0", 0, 1, "old"⟩, ⟨"subtitle-1", 1, 2, "keep"⟩]
      = [⟨"subtitle-0", 0, 1, "old"⟩, ⟨"subtitle-1", 1, 2, "keep"⟩] :=
  ⟨by with_unfolding_all decide,
   (c9_set_text [⟨"subtitle-0", 0, 1, "old"⟩, ⟨"subtitle-1", 1, 2, "keep"⟩]
      "absent" "new").2.2 (by decide)⟩
